import Mathlib

/-!
Verification of the interaction-and-ledger core of the Community_feed
backend (src/backend/feed/models.py and src/backend/feed/views.py).

The Django models are embedded as a record of relational tables; the two
toggle views (post_like, comment_like), the leaderboard aggregation and
the comment-tree builder are embedded as pure functions over that record.
Database rows are lists; the unique constraints uniq_post_like and
uniq_comment_like are reflected by the membership test that stands for
the IntegrityError branch of the views.
-/

namespace CommunityFeed

/-- A row of feed_karmaevent (models.py, KarmaEvent): beneficiary `user`,
`actor`, `event_type`, signed `delta`, nullable `post` and `comment`
references, and `created_at`. -/
structure KarmaEvent where
  user : Nat
  actor : Nat
  event_type : String
  delta : Int
  post : Option Nat
  comment : Option Nat
  created_at : Int
deriving DecidableEq

/-- The database state the views read and write: posts and comments are
kept as (id, author id) pairs, like relations as (target id, user id)
pairs, and the karma ledger as an append-only list of events. -/
structure DB where
  posts : List (Nat × Nat)
  comments : List (Nat × Nat)
  postLikes : List (Nat × Nat)
  commentLikes : List (Nat × Nat)
  ledger : List KarmaEvent
deriving DecidableEq

/-- The HTTP method dispatched on by the toggle views. -/
inductive Method where
  | POST
  | DELETE
deriving DecidableEq

/-- Number of PostLike rows for a post: PostLike.objects.filter(post=post).count(). -/
def postLikeCount (db : DB) (post_id : Nat) : Nat :=
  db.postLikes.countP (fun r => r.1 = post_id)

/-- Number of CommentLike rows for a comment:
CommentLike.objects.filter(comment=comment).count(). -/
def commentLikeCount (db : DB) (comment_id : Nat) : Nat :=
  db.commentLikes.countP (fun r => r.1 = comment_id)

/-- views.py lines 152-183, post_like. `none` is the not-found (404) outcome
of get_object_or_404. On POST, the create of a PostLike that already exists
raises IntegrityError (unique constraint uniq_post_like), which the view
catches leaving the database unchanged and liked = true; a successful create
appends the relation and the +5 post_like KarmaEvent for the post author.
On DELETE, the filtered delete removes every matching relation and, when at
least one row was deleted, appends the -5 post_unlike event. The returned
like count is recomputed from the relation table after the mutation. -/
def post_like (db : DB) (method : Method) (post_id user_id : Nat) (now : Int) :
    Option (DB × Bool × Nat) :=
  match db.posts.lookup post_id with
  | none => none
  | some author =>
    let db' : DB :=
      match method with
      | .POST =>
        if (post_id, user_id) ∈ db.postLikes then
          db
        else
          { db with
            postLikes := db.postLikes ++ [(post_id, user_id)]
            ledger := db.ledger ++
              [⟨author, user_id, "post_like", 5, some post_id, none, now⟩] }
      | .DELETE =>
        let deleted := db.postLikes.countP (fun r => r = (post_id, user_id))
        let remaining := db.postLikes.filter (fun r => ¬ r = (post_id, user_id))
        if deleted ≠ 0 then
          { db with
            postLikes := remaining
            ledger := db.ledger ++
              [⟨author, user_id, "post_unlike", -5, some post_id, none, now⟩] }
        else
          { db with postLikes := remaining }
    let liked : Bool := match method with | .POST => true | .DELETE => false
    some (db', liked, postLikeCount db' post_id)

/-- views.py lines 186-217, comment_like: same shape as post_like with the
comment tables, delta magnitudes 1, and the comment reference set on the
event instead of the post reference. -/
def comment_like (db : DB) (method : Method) (comment_id user_id : Nat) (now : Int) :
    Option (DB × Bool × Nat) :=
  match db.comments.lookup comment_id with
  | none => none
  | some author =>
    let db' : DB :=
      match method with
      | .POST =>
        if (comment_id, user_id) ∈ db.commentLikes then
          db
        else
          { db with
            commentLikes := db.commentLikes ++ [(comment_id, user_id)]
            ledger := db.ledger ++
              [⟨author, user_id, "comment_like", 1, none, some comment_id, now⟩] }
      | .DELETE =>
        let deleted := db.commentLikes.countP (fun r => r = (comment_id, user_id))
        let remaining := db.commentLikes.filter (fun r => ¬ r = (comment_id, user_id))
        if deleted ≠ 0 then
          { db with
            commentLikes := remaining
            ledger := db.ledger ++
              [⟨author, user_id, "comment_unlike", -1, none, some comment_id, now⟩] }
        else
          { db with commentLikes := remaining }
    let liked : Bool := match method with | .POST => true | .DELETE => false
    some (db', liked, commentLikeCount db' comment_id)

/-- A small concrete database used to instantiate the toggle theorems:
post 1 by author 7, comment 1 by author 8, post 1 already liked by user 2,
comment 1 already liked by user 3, empty ledger. -/
def dbW : DB := ⟨[(1, 7)], [(1, 8)], [(1, 2)], [(1, 3)], []⟩

/-- C1: a like request on an existing target whose relation already exists
reports liked = true and leaves the database, in particular the ledger,
unchanged; consequently two duplicate like requests starting from a state
without the relation leave exactly one LikeRelation for the pair and append
exactly one positive-delta KarmaEvent. -/
theorem duplicate_like_idempotent
    (db : DB) (post_id comment_id user_id : Nat) (now now2 : Int) :
    (∀ a, db.posts.lookup post_id = some a → (post_id, user_id) ∈ db.postLikes →
      post_like db .POST post_id user_id now
        = some (db, true, postLikeCount db post_id)) ∧
    (∀ a, db.comments.lookup comment_id = some a →
      (comment_id, user_id) ∈ db.commentLikes →
      comment_like db .POST comment_id user_id now
        = some (db, true, commentLikeCount db comment_id)) ∧
    (∀ a db1 l1 n1 db2 l2 n2, db.posts.lookup post_id = some a →
      (post_id, user_id) ∉ db.postLikes →
      post_like db .POST post_id user_id now = some (db1, l1, n1) →
      post_like db1 .POST post_id user_id now2 = some (db2, l2, n2) →
      db2.postLikes.count (post_id, user_id) = 1 ∧
      db2.ledger = db.ledger ++
        [⟨a, user_id, "post_like", 5, some post_id, none, now⟩]) ∧
    (∀ a db1 l1 n1 db2 l2 n2, db.comments.lookup comment_id = some a →
      (comment_id, user_id) ∉ db.commentLikes →
      comment_like db .POST comment_id user_id now = some (db1, l1, n1) →
      comment_like db1 .POST comment_id user_id now2 = some (db2, l2, n2) →
      db2.commentLikes.count (comment_id, user_id) = 1 ∧
      db2.ledger = db.ledger ++
        [⟨a, user_id, "comment_like", 1, none, some comment_id, now⟩]) := by
  refine ⟨?_, ?_, ?_, ?_⟩
  · intro a ha hmem
    simp [post_like, ha, hmem]
  · intro a ha hmem
    simp [comment_like, ha, hmem]
  · intro a db1 l1 n1 db2 l2 n2 ha hmem h1 h2
    simp [post_like, ha, hmem] at h1
    obtain ⟨hdb1, -, -⟩ := h1
    subst hdb1
    have hmem1 : (post_id, user_id) ∈ db.postLikes ++ [(post_id, user_id)] := by
      simp
    simp [post_like, ha, hmem1] at h2
    obtain ⟨hdb2, -, -⟩ := h2
    subst hdb2
    refine ⟨?_, rfl⟩
    simp [List.count_append, List.count_eq_zero.mpr hmem]
  · intro a db1 l1 n1 db2 l2 n2 ha hmem h1 h2
    simp [comment_like, ha, hmem] at h1
    obtain ⟨hdb1, -, -⟩ := h1
    subst hdb1
    have hmem1 : (comment_id, user_id) ∈ db.commentLikes ++ [(comment_id, user_id)] := by
      simp
    simp [comment_like, ha, hmem1] at h2
    obtain ⟨hdb2, -, -⟩ := h2
    subst hdb2
    refine ⟨?_, rfl⟩
    simp [List.count_append, List.count_eq_zero.mpr hmem]

/-- C1 witness: on the concrete database dbW, liking post 1 as user 2 (who
already likes it) and comment 1 as user 3 (who already likes it) report
liked = true and change nothing. -/
theorem duplicate_like_idempotent_witness :
    post_like dbW .POST 1 2 10 = some (dbW, true, 1) ∧
    comment_like dbW .POST 1 3 10 = some (dbW, true, 1) :=
  ⟨(duplicate_like_idempotent dbW 1 1 2 10 11).1 7 rfl (by decide),
   (duplicate_like_idempotent dbW 1 1 3 10 11).2.1 8 rfl (by decide)⟩

/-- C2: an unlike on an existing target removes the relation when it exists
and appends exactly the one fixed negative-delta event; when no relation
exists it returns liked = false and leaves the database unchanged. -/
theorem unlike_spec (db : DB) (post_id comment_id user_id : Nat) (now : Int) :
    (∀ a, db.posts.lookup post_id = some a → (post_id, user_id) ∈ db.postLikes →
      ∃ db', post_like db .DELETE post_id user_id now
          = some (db', false, postLikeCount db' post_id) ∧
        (post_id, user_id) ∉ db'.postLikes ∧
        db'.ledger = db.ledger ++
          [⟨a, user_id, "post_unlike", -5, some post_id, none, now⟩]) ∧
    (∀ a, db.posts.lookup post_id = some a → (post_id, user_id) ∉ db.postLikes →
      post_like db .DELETE post_id user_id now
        = some (db, false, postLikeCount db post_id)) ∧
    (∀ a, db.comments.lookup comment_id = some a →
      (comment_id, user_id) ∈ db.commentLikes →
      ∃ db', comment_like db .DELETE comment_id user_id now
          = some (db', false, commentLikeCount db' comment_id) ∧
        (comment_id, user_id) ∉ db'.commentLikes ∧
        db'.ledger = db.ledger ++
          [⟨a, user_id, "comment_unlike", -1, none, some comment_id, now⟩]) ∧
    (∀ a, db.comments.lookup comment_id = some a →
      (comment_id, user_id) ∉ db.commentLikes →
      comment_like db .DELETE comment_id user_id now
        = some (db, false, commentLikeCount db comment_id)) := by
  refine ⟨?_, ?_, ?_, ?_⟩
  · intro a ha hmem
    have hd : db.postLikes.countP (fun r => r = (post_id, user_id)) ≠ 0 :=
      Nat.pos_iff_ne_zero.mp (List.countP_pos_iff.mpr ⟨_, hmem, by simp⟩)
    refine ⟨{ db with
        postLikes := db.postLikes.filter (fun r => ¬ r = (post_id, user_id))
        ledger := db.ledger ++
          [⟨a, user_id, "post_unlike", -5, some post_id, none, now⟩] },
      ?_, ?_, rfl⟩
    · simp [post_like, ha, hd]
    · simp
  · intro a ha hmem
    have hd : db.postLikes.countP (fun r => r = (post_id, user_id)) = 0 :=
      List.countP_eq_zero.mpr (fun r hr h => hmem ((of_decide_eq_true h) ▸ hr))
    have hfil : db.postLikes.filter (fun r => !decide (r = (post_id, user_id)))
        = db.postLikes :=
      List.filter_eq_self.mpr (fun r hr => by
        rw [decide_eq_false (fun h : r = (post_id, user_id) => hmem (h ▸ hr))]
        rfl)
    simp [post_like, ha, hd, hfil]
  · intro a ha hmem
    have hd : db.commentLikes.countP (fun r => r = (comment_id, user_id)) ≠ 0 :=
      Nat.pos_iff_ne_zero.mp (List.countP_pos_iff.mpr ⟨_, hmem, by simp⟩)
    refine ⟨{ db with
        commentLikes := db.commentLikes.filter (fun r => ¬ r = (comment_id, user_id))
        ledger := db.ledger ++
          [⟨a, user_id, "comment_unlike", -1, none, some comment_id, now⟩] },
      ?_, ?_, rfl⟩
    · simp [comment_like, ha, hd]
    · simp
  · intro a ha hmem
    have hd : db.commentLikes.countP (fun r => r = (comment_id, user_id)) = 0 :=
      List.countP_eq_zero.mpr (fun r hr h => hmem ((of_decide_eq_true h) ▸ hr))
    have hfil : db.commentLikes.filter (fun r => !decide (r = (comment_id, user_id)))
        = db.commentLikes :=
      List.filter_eq_self.mpr (fun r hr => by
        rw [decide_eq_false (fun h : r = (comment_id, user_id) => hmem (h ▸ hr))]
        rfl)
    simp [comment_like, ha, hd, hfil]

/-- C2 witness: on dbW, unliking post 1 as user 2 removes the relation and
appends the -5 event; unliking post 1 as user 4 (no relation) is a no-op
returning liked = false. -/
theorem unlike_spec_witness :
    post_like dbW .DELETE 1 4 21 = some (dbW, false, 1) ∧
    comment_like dbW .DELETE 1 4 21 = some (dbW, false, 1) :=
  ⟨(unlike_spec dbW 1 1 4 21).2.1 7 rfl (by decide),
   (unlike_spec dbW 1 1 4 21).2.2.2 8 rfl (by decide)⟩

/-- C3: any event a toggle appends credits the target author as beneficiary,
records the acting user as actor, and carries the policy delta and event
type of its kind: +5 post_like, -5 post_unlike, +1 comment_like,
-1 comment_unlike, with the matching target reference. -/
theorem karma_event_attribution
    (db : DB) (post_id comment_id user_id : Nat) (now : Int) :
    (∀ a db' l n, db.posts.lookup post_id = some a →
      post_like db .POST post_id user_id now = some (db', l, n) →
      db'.ledger = db.ledger ∨ db'.ledger = db.ledger ++
        [⟨a, user_id, "post_like", 5, some post_id, none, now⟩]) ∧
    (∀ a db' l n, db.posts.lookup post_id = some a →
      post_like db .DELETE post_id user_id now = some (db', l, n) →
      db'.ledger = db.ledger ∨ db'.ledger = db.ledger ++
        [⟨a, user_id, "post_unlike", -5, some post_id, none, now⟩]) ∧
    (∀ a db' l n, db.comments.lookup comment_id = some a →
      comment_like db .POST comment_id user_id now = some (db', l, n) →
      db'.ledger = db.ledger ∨ db'.ledger = db.ledger ++
        [⟨a, user_id, "comment_like", 1, none, some comment_id, now⟩]) ∧
    (∀ a db' l n, db.comments.lookup comment_id = some a →
      comment_like db .DELETE comment_id user_id now = some (db', l, n) →
      db'.ledger = db.ledger ∨ db'.ledger = db.ledger ++
        [⟨a, user_id, "comment_unlike", -1, none, some comment_id, now⟩]) := by
  refine ⟨?_, ?_, ?_, ?_⟩
  · intro a db' l n ha h
    by_cases hmem : (post_id, user_id) ∈ db.postLikes
    · simp [post_like, ha, hmem] at h
      obtain ⟨hdb, -, -⟩ := h
      subst hdb
      exact Or.inl rfl
    · simp [post_like, ha, hmem] at h
      obtain ⟨hdb, -, -⟩ := h
      subst hdb
      exact Or.inr rfl
  · intro a db' l n ha h
    by_cases hd : db.postLikes.countP (fun r => r = (post_id, user_id)) = 0
    · simp [post_like, ha, hd] at h
      obtain ⟨hdb, -, -⟩ := h
      subst hdb
      exact Or.inl rfl
    · simp [post_like, ha, hd] at h
      obtain ⟨hdb, -, -⟩ := h
      subst hdb
      exact Or.inr rfl
  · intro a db' l n ha h
    by_cases hmem : (comment_id, user_id) ∈ db.commentLikes
    · simp [comment_like, ha, hmem] at h
      obtain ⟨hdb, -, -⟩ := h
      subst hdb
      exact Or.inl rfl
    · simp [comment_like, ha, hmem] at h
      obtain ⟨hdb, -, -⟩ := h
      subst hdb
      exact Or.inr rfl
  · intro a db' l n ha h
    by_cases hd : db.commentLikes.countP (fun r => r = (comment_id, user_id)) = 0
    · simp [comment_like, ha, hd] at h
      obtain ⟨hdb, -, -⟩ := h
      subst hdb
      exact Or.inl rfl
    · simp [comment_like, ha, hd] at h
      obtain ⟨hdb, -, -⟩ := h
      subst hdb
      exact Or.inr rfl

/-- C3 witness: on dbW, liking post 1 as the fresh user 4 appends exactly
the +5 post_like event for author 7; the instantiation of the attribution
theorem at that concrete call. -/
theorem karma_event_attribution_witness :
    ({ dbW with
        postLikes := dbW.postLikes ++ [(1, 4)]
        ledger := dbW.ledger ++ [⟨7, 4, "post_like", 5, some 1, none, 30⟩] } : DB).ledger
        = dbW.ledger ∨
    ({ dbW with
        postLikes := dbW.postLikes ++ [(1, 4)]
        ledger := dbW.ledger ++ [⟨7, 4, "post_like", 5, some 1, none, 30⟩] } : DB).ledger
        = dbW.ledger ++ [⟨7, 4, "post_like", 5, some 1, none, 30⟩] :=
  (karma_event_attribution dbW 1 1 4 30).1 7 _ true 2 rfl rfl

/-- C9: every toggle outcome, including the no-op branches, returns a like
count equal to the number of like relations for the target in the resulting
database state. -/
theorem like_count_recomputed
    (db : DB) (method : Method) (post_id comment_id user_id : Nat) (now : Int) :
    (∀ db' l n, post_like db method post_id user_id now = some (db', l, n) →
      n = postLikeCount db' post_id) ∧
    (∀ db' l n, comment_like db method comment_id user_id now = some (db', l, n) →
      n = commentLikeCount db' comment_id) := by
  constructor
  · intro db' l n h
    cases hl : db.posts.lookup post_id with
    | none => simp [post_like, hl] at h
    | some a =>
      cases method with
      | POST =>
        by_cases hmem : (post_id, user_id) ∈ db.postLikes
        · simp [post_like, hl, hmem] at h
          obtain ⟨hdb, -, hn⟩ := h
          subst hdb
          exact hn.symm
        · simp [post_like, hl, hmem] at h
          obtain ⟨hdb, -, hn⟩ := h
          subst hdb
          exact hn.symm
      | DELETE =>
        by_cases hd : db.postLikes.countP (fun r => r = (post_id, user_id)) = 0
        · simp [post_like, hl, hd] at h
          obtain ⟨hdb, -, hn⟩ := h
          subst hdb
          exact hn.symm
        · simp [post_like, hl, hd] at h
          obtain ⟨hdb, -, hn⟩ := h
          subst hdb
          exact hn.symm
  · intro db' l n h
    cases hl : db.comments.lookup comment_id with
    | none => simp [comment_like, hl] at h
    | some a =>
      cases method with
      | POST =>
        by_cases hmem : (comment_id, user_id) ∈ db.commentLikes
        · simp [comment_like, hl, hmem] at h
          obtain ⟨hdb, -, hn⟩ := h
          subst hdb
          exact hn.symm
        · simp [comment_like, hl, hmem] at h
          obtain ⟨hdb, -, hn⟩ := h
          subst hdb
          exact hn.symm
      | DELETE =>
        by_cases hd : db.commentLikes.countP (fun r => r = (comment_id, user_id)) = 0
        · simp [comment_like, hl, hd] at h
          obtain ⟨hdb, -, hn⟩ := h
          subst hdb
          exact hn.symm
        · simp [comment_like, hl, hd] at h
          obtain ⟨hdb, -, hn⟩ := h
          subst hdb
          exact hn.symm

/-- C9 witness: the returned counts of a concrete like and a concrete unlike
on dbW equal the relation counts of the resulting states. -/
theorem like_count_recomputed_witness :
    (1 : Nat) = postLikeCount dbW 1 ∧ (1 : Nat) = commentLikeCount dbW 1 :=
  ⟨(like_count_recomputed dbW .POST 1 1 2 40).1 dbW true 1 rfl,
   (like_count_recomputed dbW .POST 1 1 3 40).2 dbW true 1 rfl⟩

/-- C7 counterexample: starting from dbW, where user 2 already likes post 1,
a like toggle (no-op, liked = true) followed by an unlike toggle leaves the
post with like count 0 instead of the prior 1, and the two operations
contribute a net ledger delta of -5, not 0. -/
theorem like_unlike_round_trip_counterexample :
    postLikeCount dbW 1 = 1 ∧
    post_like dbW .POST 1 2 10 = some (dbW, true, 1) ∧
    post_like dbW .DELETE 1 2 11
      = some (⟨[(1, 7)], [(1, 8)], [], [(1, 3)],
          [⟨7, 2, "post_unlike", -5, some 1, none, 11⟩]⟩, false, 0) ∧
    postLikeCount (⟨[(1, 7)], [(1, 8)], [], [(1, 3)],
          [⟨7, 2, "post_unlike", -5, some 1, none, 11⟩]⟩ : DB) 1 ≠ postLikeCount dbW 1 ∧
    ((((⟨[(1, 7)], [(1, 8)], [], [(1, 3)],
          [⟨7, 2, "post_unlike", -5, some 1, none, 11⟩]⟩ : DB).ledger.drop
            dbW.ledger.length).map KarmaEvent.delta).sum : Int) ≠ 0 := by
  refine ⟨rfl, rfl, rfl, by decide, by decide⟩

/-- C7 amended: for every starting state in which the acting user does not
yet like the target, a like toggle followed by an unlike toggle on the same
target/user pair restores the relation table and the like count, and the
events appended by the two operations sum to a net delta of zero. -/
theorem like_unlike_round_trip
    (db : DB) (post_id comment_id user_id : Nat) (now now2 : Int) :
    (∀ a db1 l1 n1 db2 l2 n2, db.posts.lookup post_id = some a →
      (post_id, user_id) ∉ db.postLikes →
      post_like db .POST post_id user_id now = some (db1, l1, n1) →
      post_like db1 .DELETE post_id user_id now2 = some (db2, l2, n2) →
      db2.postLikes = db.postLikes ∧
      postLikeCount db2 post_id = postLikeCount db post_id ∧
      ((db2.ledger.drop db.ledger.length).map KarmaEvent.delta).sum = 0) ∧
    (∀ a db1 l1 n1 db2 l2 n2, db.comments.lookup comment_id = some a →
      (comment_id, user_id) ∉ db.commentLikes →
      comment_like db .POST comment_id user_id now = some (db1, l1, n1) →
      comment_like db1 .DELETE comment_id user_id now2 = some (db2, l2, n2) →
      db2.commentLikes = db.commentLikes ∧
      commentLikeCount db2 comment_id = commentLikeCount db comment_id ∧
      ((db2.ledger.drop db.ledger.length).map KarmaEvent.delta).sum = 0) := by
  constructor
  · intro a db1 l1 n1 db2 l2 n2 ha hmem h1 h2
    simp [post_like, ha, hmem] at h1
    obtain ⟨hdb1, -, -⟩ := h1
    subst hdb1
    have hd : (db.postLikes ++ [(post_id, user_id)]).countP
        (fun r => r = (post_id, user_id)) ≠ 0 := by
      simp [List.countP_append]
    have hself : db.postLikes.filter (fun r => !decide (r = (post_id, user_id)))
        = db.postLikes :=
      List.filter_eq_self.mpr (fun r hr => by
        rw [decide_eq_false (fun h : r = (post_id, user_id) => hmem (h ▸ hr))]
        rfl)
    simp [post_like, ha, hd] at h2
    obtain ⟨hdb2, -, -⟩ := h2
    subst hdb2
    refine ⟨hself, ?_, ?_⟩
    · simp only [postLikeCount, hself]
    · simp [List.drop_left]
  · intro a db1 l1 n1 db2 l2 n2 ha hmem h1 h2
    simp [comment_like, ha, hmem] at h1
    obtain ⟨hdb1, -, -⟩ := h1
    subst hdb1
    have hd : (db.commentLikes ++ [(comment_id, user_id)]).countP
        (fun r => r = (comment_id, user_id)) ≠ 0 := by
      simp [List.countP_append]
    have hself : db.commentLikes.filter (fun r => !decide (r = (comment_id, user_id)))
        = db.commentLikes :=
      List.filter_eq_self.mpr (fun r hr => by
        rw [decide_eq_false (fun h : r = (comment_id, user_id) => hmem (h ▸ hr))]
        rfl)
    simp [comment_like, ha, hd] at h2
    obtain ⟨hdb2, -, -⟩ := h2
    subst hdb2
    refine ⟨hself, ?_, ?_⟩
    · simp only [commentLikeCount, hself]
    · simp [List.drop_left]

/-- C7 amended witness: on dbW with the fresh user 4, the like/unlike round
trip on post 1 restores the relation table and like count and nets a zero
ledger delta. -/
theorem like_unlike_round_trip_witness :
    ({ dbW with
        postLikes := [(1, 2)]
        ledger := [⟨7, 4, "post_like", 5, some 1, none, 10⟩,
                   ⟨7, 4, "post_unlike", -5, some 1, none, 11⟩] } : DB).postLikes
      = dbW.postLikes ∧
    postLikeCount ({ dbW with
        postLikes := [(1, 2)]
        ledger := [⟨7, 4, "post_like", 5, some 1, none, 10⟩,
                   ⟨7, 4, "post_unlike", -5, some 1, none, 11⟩] } : DB) 1
      = postLikeCount dbW 1 ∧
    ((({ dbW with
        postLikes := [(1, 2)]
        ledger := [⟨7, 4, "post_like", 5, some 1, none, 10⟩,
                   ⟨7, 4, "post_unlike", -5, some 1, none, 11⟩] } : DB).ledger.drop
          dbW.ledger.length).map KarmaEvent.delta).sum = (0 : Int) :=
  (like_unlike_round_trip dbW 1 1 4 10 11).1 7
    ({ dbW with
        postLikes := dbW.postLikes ++ [(1, 4)],
        ledger := [⟨7, 4, "post_like", 5, some 1, none, 10⟩] } : DB)
    true 2 _ false 1 rfl (by decide) rfl rfl

/-- Exactly one of the post and comment references of a KarmaEvent is set:
the check constraint karmaevent_exactly_one_target of models.py. -/
def ExactlyOneTarget (e : KarmaEvent) : Prop :=
  (e.post ≠ none ∧ e.comment = none) ∨ (e.post = none ∧ e.comment ≠ none)

/-- Every event of the ledger satisfies the exclusivity constraint. -/
def LedgerExclusive (db : DB) : Prop :=
  ∀ e ∈ db.ledger, ExactlyOneTarget e

/-- One toggle request handled by either of the two like views. -/
inductive Step : DB → DB → Prop where
  | post (db : DB) (method : Method) (post_id user_id : Nat) (now : Int)
      (db' : DB) (liked : Bool) (n : Nat) :
      post_like db method post_id user_id now = some (db', liked, n) → Step db db'
  | comm (db : DB) (method : Method) (comment_id user_id : Nat) (now : Int)
      (db' : DB) (liked : Bool) (n : Nat) :
      comment_like db method comment_id user_id now = some (db', liked, n) → Step db db'

/-- Database states reachable by toggle sequences from a state whose ledger
is empty; the content tables may hold arbitrary initial rows. -/
inductive Reachable : DB → Prop where
  | init (posts comments postLikes commentLikes : List (Nat × Nat)) :
      Reachable ⟨posts, comments, postLikes, commentLikes, []⟩
  | step (db db' : DB) : Reachable db → Step db db' → Reachable db'

/-- A post toggle either leaves the ledger unchanged or appends one event
with exactly one target reference set. -/
theorem post_like_ledger_extend (db : DB) (m : Method) (pid uid : Nat) (now : Int)
    (db' : DB) (l : Bool) (n : Nat)
    (h : post_like db m pid uid now = some (db', l, n)) :
    db'.ledger = db.ledger ∨ ∃ e, ExactlyOneTarget e ∧ db'.ledger = db.ledger ++ [e] := by
  cases hl : db.posts.lookup pid with
  | none => simp [post_like, hl] at h
  | some a =>
    cases m with
    | POST =>
      by_cases hmem : (pid, uid) ∈ db.postLikes
      · simp [post_like, hl, hmem] at h
        obtain ⟨hdb, -, -⟩ := h
        subst hdb
        exact Or.inl rfl
      · simp [post_like, hl, hmem] at h
        obtain ⟨hdb, -, -⟩ := h
        subst hdb
        exact Or.inr ⟨_, Or.inl (by simp), rfl⟩
    | DELETE =>
      by_cases hd : db.postLikes.countP (fun r => r = (pid, uid)) = 0
      · simp [post_like, hl, hd] at h
        obtain ⟨hdb, -, -⟩ := h
        subst hdb
        exact Or.inl rfl
      · simp [post_like, hl, hd] at h
        obtain ⟨hdb, -, -⟩ := h
        subst hdb
        exact Or.inr ⟨_, Or.inl (by simp), rfl⟩

/-- A comment toggle either leaves the ledger unchanged or appends one event
with exactly one target reference set. -/
theorem comment_like_ledger_extend (db : DB) (m : Method) (cid uid : Nat) (now : Int)
    (db' : DB) (l : Bool) (n : Nat)
    (h : comment_like db m cid uid now = some (db', l, n)) :
    db'.ledger = db.ledger ∨ ∃ e, ExactlyOneTarget e ∧ db'.ledger = db.ledger ++ [e] := by
  cases hl : db.comments.lookup cid with
  | none => simp [comment_like, hl] at h
  | some a =>
    cases m with
    | POST =>
      by_cases hmem : (cid, uid) ∈ db.commentLikes
      · simp [comment_like, hl, hmem] at h
        obtain ⟨hdb, -, -⟩ := h
        subst hdb
        exact Or.inl rfl
      · simp [comment_like, hl, hmem] at h
        obtain ⟨hdb, -, -⟩ := h
        subst hdb
        exact Or.inr ⟨_, Or.inr (by simp), rfl⟩
    | DELETE =>
      by_cases hd : db.commentLikes.countP (fun r => r = (cid, uid)) = 0
      · simp [comment_like, hl, hd] at h
        obtain ⟨hdb, -, -⟩ := h
        subst hdb
        exact Or.inl rfl
      · simp [comment_like, hl, hd] at h
        obtain ⟨hdb, -, -⟩ := h
        subst hdb
        exact Or.inr ⟨_, Or.inr (by simp), rfl⟩

/-- C8: every KarmaEvent ever written by any sequence of toggle operations
has exactly one of its post and comment references set; the exclusivity
invariant holds in every reachable database state. -/
theorem reachable_ledger_exclusive (db : DB) (h : Reachable db) :
    LedgerExclusive db := by
  induction h with
  | init posts comments postLikes commentLikes =>
    intro e he
    simp at he
  | step db0 db1 hr hs ih =>
    cases hs with
    | post x1 x2 x3 x4 x5 x6 x7 heq =>
      rcases post_like_ledger_extend _ _ _ _ _ _ _ _ heq with
        hsame | ⟨e, hex, happ⟩
      · intro f hf
        exact ih f (hsame ▸ hf)
      · intro f hf
        rw [happ] at hf
        rcases List.mem_append.mp hf with h1 | h2
        · exact ih f h1
        · rw [List.mem_singleton.mp h2]
          exact hex
    | comm x1 x2 x3 x4 x5 x6 x7 heq =>
      rcases comment_like_ledger_extend _ _ _ _ _ _ _ _ heq with
        hsame | ⟨e, hex, happ⟩
      · intro f hf
        exact ih f (hsame ▸ hf)
      · intro f hf
        rw [happ] at hf
        rcases List.mem_append.mp hf with h1 | h2
        · exact ih f h1
        · rw [List.mem_singleton.mp h2]
          exact hex

/-- C8 witness: the state reached from dbW by one fresh post like has an
exclusivity-respecting ledger. -/
theorem reachable_ledger_exclusive_witness :
    LedgerExclusive ({ dbW with
      postLikes := dbW.postLikes ++ [(1, 4)],
      ledger := [⟨7, 4, "post_like", 5, some 1, none, 50⟩] } : DB) :=
  reachable_ledger_exclusive _
    (Reachable.step dbW _ (Reachable.init [(1, 7)] [(1, 8)] [(1, 2)] [(1, 3)])
      (Step.post dbW .POST 1 4 50 _ true 2 rfl))

/-- views.py line 222: since = timezone.now() - timedelta(hours=24),
with timestamps in seconds. -/
def sinceOf (now : Int) : Int := now - 24 * 3600

/-- views.py line 226: KarmaEvent.objects.filter(created_at__gte=since). -/
def windowEvents (ledger : List KarmaEvent) (now : Int) : List KarmaEvent :=
  ledger.filter (fun e => sinceOf now ≤ e.created_at)

/-- The distinct values of a list in order of first occurrence; the order in
which .values(user) yields the groups of the window events, standing in for
the unspecified storage-dependent GROUP BY output order. -/
def firstOccDedup : List Nat → List Nat
  | [] => []
  | u :: rest => u :: (firstOccDedup rest).filter (fun v => ¬ v = u)

/-- The beneficiary users that have at least one event in the window:
the groups produced by .values(user). -/
def beneficiaries (evs : List KarmaEvent) : List Nat :=
  firstOccDedup (evs.map KarmaEvent.user)

/-- Sum(delta) over one user's group of window events (Coalesce(..., 0) is
the empty sum). -/
def karmaOf (evs : List KarmaEvent) (u : Nat) : Int :=
  ((evs.filter (fun e => e.user = u)).map KarmaEvent.delta).sum

/-- The descending-karma comparison used by order_by(-karma): only the
summed karma is compared, nothing orders users within a karma value. -/
def karmaDesc (p q : Nat × Int) : Prop := q.2 ≤ p.2

instance : DecidableRel karmaDesc := fun p q =>
  inferInstanceAs (Decidable (q.2 ≤ p.2))

instance : IsTotal (Nat × Int) karmaDesc :=
  ⟨fun p q => le_total q.2 p.2⟩

instance : IsTrans (Nat × Int) karmaDesc :=
  ⟨fun _ _ _ hpq hqr => le_trans hqr hpq⟩

/-- The annotated rows (user, karma) before ordering: one row per
beneficiary group of the window, in group order. -/
def leaderboardRows (ledger : List KarmaEvent) (now : Int) : List (Nat × Int) :=
  (beneficiaries (windowEvents ledger now)).map
    (fun u => (u, karmaOf (windowEvents ledger now) u))

/-- The rows after order_by(-karma): a stable sort by descending karma. -/
def leaderboardSorted (ledger : List KarmaEvent) (now : Int) : List (Nat × Int) :=
  List.insertionSort karmaDesc (leaderboardRows ledger now)

/-- views.py lines 225-230, leaderboard: filter the trailing 24h window,
group by beneficiary, sum deltas, sort by descending karma, truncate to 5.
(The payload loop of lines 232-244 additionally drops users missing from
the auth table; identity resolution is outside this core.) -/
def leaderboard (ledger : List KarmaEvent) (now : Int) : List (Nat × Int) :=
  (leaderboardSorted ledger now).take 5

theorem mem_firstOccDedup (l : List Nat) (u : Nat) :
    u ∈ firstOccDedup l ↔ u ∈ l := by
  induction l with
  | nil => simp [firstOccDedup]
  | cons v rest ih =>
    simp only [firstOccDedup, List.mem_cons, List.mem_filter]
    constructor
    · rintro (rfl | ⟨hm, -⟩)
      · exact Or.inl rfl
      · exact Or.inr (ih.mp hm)
    · rintro (rfl | hm)
      · exact Or.inl rfl
      · by_cases hv : u = v
        · exact Or.inl hv
        · exact Or.inr ⟨ih.mpr hm, by simp [hv]⟩

/-- C4: the leaderboard keeps exactly the window events, groups them by
beneficiary, sums deltas per group (users without a window event never
appear), sorts descending by summed karma and truncates to at most 5
entries; with 7 distinct beneficiaries in the window it returns exactly 5. -/
theorem leaderboard_spec (ledger : List KarmaEvent) (now : Int) :
    List.Sorted karmaDesc (leaderboard ledger now) ∧
    (leaderboard ledger now).length
      = min 5 (beneficiaries (windowEvents ledger now)).length ∧
    (∀ p ∈ leaderboard ledger now,
      p.1 ∈ (windowEvents ledger now).map KarmaEvent.user ∧
      p.2 = karmaOf (windowEvents ledger now) p.1) ∧
    (∀ u k, u ∉ (windowEvents ledger now).map KarmaEvent.user →
      (u, k) ∉ leaderboard ledger now) ∧
    ((beneficiaries (windowEvents ledger now)).length = 7 →
      (leaderboard ledger now).length = 5) := by
  have hmemrows : ∀ p ∈ leaderboard ledger now, p ∈ leaderboardRows ledger now := by
    intro p hp
    have h1 : p ∈ leaderboardSorted ledger now :=
      (List.take_sublist 5 _).subset hp
    exact (List.perm_insertionSort karmaDesc _).mem_iff.mp h1
  have hkey : ∀ p ∈ leaderboard ledger now,
      p.1 ∈ (windowEvents ledger now).map KarmaEvent.user ∧
      p.2 = karmaOf (windowEvents ledger now) p.1 := by
    intro p hp
    obtain ⟨u, hu, hpu⟩ := List.mem_map.mp (hmemrows p hp)
    subst hpu
    refine ⟨?_, rfl⟩
    exact (mem_firstOccDedup _ _).mp hu
  have hlen : (leaderboard ledger now).length
      = min 5 (beneficiaries (windowEvents ledger now)).length := by
    rw [leaderboard, List.length_take, leaderboardSorted,
      List.length_insertionSort, leaderboardRows, List.length_map]
  refine ⟨?_, hlen, hkey, ?_, ?_⟩
  · exact (List.sorted_insertionSort karmaDesc _).sublist (List.take_sublist 5 _)
  · intro u k hu hmem
    exact hu (hkey (u, k) hmem).1
  · intro h7
    rw [hlen, h7]
    decide

/-- C4 witness: a ledger holding one +5 event for each of the 7 distinct
users 1..7, all inside the window of now = 0, yields exactly 5 entries. -/
theorem leaderboard_spec_witness :
    (leaderboard
      [⟨1, 9, "post_like", 5, some 1, none, 0⟩, ⟨2, 9, "post_like", 5, some 1, none, 0⟩,
       ⟨3, 9, "post_like", 5, some 1, none, 0⟩, ⟨4, 9, "post_like", 5, some 1, none, 0⟩,
       ⟨5, 9, "post_like", 5, some 1, none, 0⟩, ⟨6, 9, "post_like", 5, some 1, none, 0⟩,
       ⟨7, 9, "post_like", 5, some 1, none, 0⟩] 0).length = 5 :=
  (leaderboard_spec
      [⟨1, 9, "post_like", 5, some 1, none, 0⟩, ⟨2, 9, "post_like", 5, some 1, none, 0⟩,
       ⟨3, 9, "post_like", 5, some 1, none, 0⟩, ⟨4, 9, "post_like", 5, some 1, none, 0⟩,
       ⟨5, 9, "post_like", 5, some 1, none, 0⟩, ⟨6, 9, "post_like", 5, some 1, none, 0⟩,
       ⟨7, 9, "post_like", 5, some 1, none, 0⟩] 0).2.2.2.2 (by decide)

/-- C5 counterexample: two users with equal window karma 5 whose events are
stored with user 2 first come out as [(2, 5), (1, 5)], not in the ascending
user id order [(1, 5), (2, 5)] the claim requires; nothing in the view
orders equal-karma users by id. -/
theorem leaderboard_tie_not_id_ordered :
    leaderboard
      [⟨2, 9, "post_like", 5, some 1, none, 0⟩,
       ⟨1, 9, "post_like", 5, some 2, none, 0⟩] 0 = [(2, 5), (1, 5)] ∧
    leaderboard
      [⟨2, 9, "post_like", 5, some 1, none, 0⟩,
       ⟨1, 9, "post_like", 5, some 2, none, 0⟩] 0 ≠ [(1, 5), (2, 5)] := by
  constructor
  · decide
  · decide

/-- C5 amended: the leaderboard is a deterministic function of the stored
ledger contents, but the relative order of equal-karma users follows the
order in which their groups arise from storage (first occurrence among the
window events), not ascending user id: any two rows in group order related
by karmaDesc keep that order through the descending sort, and the output is
the 5-entry prefix of the sorted rows. -/
theorem leaderboard_tie_storage_order (ledger : List KarmaEvent) (now : Int)
    (p q : Nat × Int) (hk : karmaDesc p q)
    (hsub : List.Sublist [p, q] (leaderboardRows ledger now)) :
    List.Sublist [p, q] (leaderboardSorted ledger now) ∧
    leaderboard ledger now = (leaderboardSorted ledger now).take 5 :=
  ⟨List.pair_sublist_insertionSort hk hsub, rfl⟩

/-- C5 amended witness: on the two-user equal-karma ledger, the pair
[(2, 5), (1, 5)] in storage order survives the sort in that order. -/
theorem leaderboard_tie_storage_order_witness :
    List.Sublist [((2 : Nat), (5 : Int)), (1, 5)]
      (leaderboardSorted
        [⟨2, 9, "post_like", 5, some 1, none, 0⟩,
         ⟨1, 9, "post_like", 5, some 2, none, 0⟩] 0) ∧
    leaderboard
      [⟨2, 9, "post_like", 5, some 1, none, 0⟩,
       ⟨1, 9, "post_like", 5, some 2, none, 0⟩] 0
      = (leaderboardSorted
        [⟨2, 9, "post_like", 5, some 1, none, 0⟩,
         ⟨1, 9, "post_like", 5, some 2, none, 0⟩] 0).take 5 :=
  leaderboard_tie_storage_order
    [⟨2, 9, "post_like", 5, some 1, none, 0⟩,
     ⟨1, 9, "post_like", 5, some 2, none, 0⟩] 0 (2, 5) (1, 5)
    (by decide) (List.Sublist.refl _)

/-- A comment row as the annotated flat query of build_comment_tree
supplies it (views.py lines 54-60): id, body, author id and username,
created_at, the annotated like_count and liked_by_me, and the nullable
parent id. The list handed to the tree builder is sorted ascending by
created_at by the query. -/
structure CommentRow where
  id : Nat
  body : String
  author_id : Nat
  username : String
  created_at : Int
  like_count : Nat
  liked_by_me : Bool
  parent_id : Option Nat
deriving DecidableEq

/-- The nested dictionary produced by _comment_to_dict (views.py lines
34-49): the row fields plus the recursively built children list. -/
inductive CommentNode where
  | mk (id : Nat) (body : String) (author_id : Nat) (username : String)
      (created_at : Int) (like_count : Nat) (liked_by_me : Bool)
      (children : List CommentNode)

def CommentNode.id : CommentNode → Nat
  | .mk i _ _ _ _ _ _ _ => i

def CommentNode.children : CommentNode → List CommentNode
  | .mk _ _ _ _ _ _ _ cs => cs

/-- by_parent.setdefault(parent_id, []).append(c): append c to the bucket
of key k, creating the bucket at the end of the mapping on first use
(Python dicts preserve insertion order). -/
def setdefaultAppend (m : List (Nat × List CommentRow)) (k : Nat) (c : CommentRow) :
    List (Nat × List CommentRow) :=
  match m with
  | [] => [(k, [c])]
  | (k', cs) :: rest =>
    if k' = k then (k', cs ++ [c]) :: rest
    else (k', cs) :: setdefaultAppend rest k c

/-- The loop of views.py lines 65-69: walk the flat list accumulating the
roots (comments with no parent) and the parent-to-children buckets, both in
input order. -/
def collectFrom (byp : List (Nat × List CommentRow)) (roots : List CommentRow) :
    List CommentRow → List (Nat × List CommentRow) × List CommentRow
  | [] => (byp, roots)
  | c :: rest =>
    match c.parent_id with
    | none => collectFrom byp (roots ++ [c]) rest
    | some p => collectFrom (setdefaultAppend byp p c) roots rest

/-- by_parent.get(c.id, []). -/
def lookupChildren (m : List (Nat × List CommentRow)) (k : Nat) : List CommentRow :=
  (m.lookup k).getD []

/-- _comment_to_dict with a recursion-depth fuel argument: the Python
recursion is unbounded and terminates exactly because the data forms a
forest; any fuel of at least the nesting depth (the list length always
suffices for a forest) computes the same tree. -/
def comment_to_dict (byp : List (Nat × List CommentRow)) :
    Nat → CommentRow → CommentNode
  | 0 => fun c =>
      .mk c.id c.body c.author_id c.username c.created_at c.like_count c.liked_by_me []
  | fuel + 1 => fun c =>
      .mk c.id c.body c.author_id c.username c.created_at c.like_count c.liked_by_me
        ((lookupChildren byp c.id).map (comment_to_dict byp fuel))

/-- build_comment_tree (views.py lines 52-71) on the flat annotated list:
split into roots and buckets, then materialize each root. -/
def build_comment_tree (comments : List CommentRow) : List CommentNode :=
  let acc := collectFrom [] [] comments
  acc.2.map (comment_to_dict acc.1 comments.length)

theorem comment_to_dict_id (byp : List (Nat × List CommentRow)) (fuel : Nat)
    (c : CommentRow) : (comment_to_dict byp fuel c).id = c.id := by
  cases fuel <;> rfl

theorem comment_to_dict_children (byp : List (Nat × List CommentRow)) (fuel : Nat)
    (c : CommentRow) :
    (comment_to_dict byp (fuel + 1) c).children
      = (lookupChildren byp c.id).map (comment_to_dict byp fuel) := rfl

theorem collectFrom_roots (l : List CommentRow) :
    ∀ byp roots, (collectFrom byp roots l).2
      = roots ++ l.filter (fun c => c.parent_id = none) := by
  induction l with
  | nil => intro byp roots; simp [collectFrom]
  | cons c rest ih =>
    intro byp roots
    cases hp : c.parent_id with
    | none =>
      simp only [collectFrom, hp, ih, List.filter_cons, hp]
      simp
    | some p =>
      simp only [collectFrom, hp, ih, List.filter_cons, hp]
      simp

theorem lookupChildren_cons (k0 : Nat) (cs : List CommentRow)
    (rest : List (Nat × List CommentRow)) (k : Nat) :
    lookupChildren ((k0, cs) :: rest) k
      = if k = k0 then cs else lookupChildren rest k := by
  by_cases h : k = k0
  · have hb : (k == k0) = true := beq_iff_eq.mpr h
    simp [lookupChildren, List.lookup, hb, h]
  · have hb : (k == k0) = false := beq_eq_false_iff_ne.mpr h
    simp [lookupChildren, List.lookup, hb, h]

theorem lookupChildren_setdefaultAppend_same (m : List (Nat × List CommentRow))
    (k : Nat) (c : CommentRow) :
    lookupChildren (setdefaultAppend m k c) k = lookupChildren m k ++ [c] := by
  induction m with
  | nil => simp [setdefaultAppend, lookupChildren_cons, lookupChildren, List.lookup]
  | cons kv rest ih =>
    obtain ⟨k1, cs⟩ := kv
    by_cases hk : k1 = k
    · subst hk
      simp [setdefaultAppend, lookupChildren_cons]
    · have hkk : ¬ k = k1 := fun h => hk h.symm
      simp [setdefaultAppend, if_neg hk, lookupChildren_cons, hkk, ih]

theorem lookupChildren_setdefaultAppend_ne (m : List (Nat × List CommentRow))
    (k k' : Nat) (c : CommentRow) (hne : k' ≠ k) :
    lookupChildren (setdefaultAppend m k c) k' = lookupChildren m k' := by
  induction m with
  | nil =>
    have hb : (k' == k) = false := beq_eq_false_iff_ne.mpr hne
    simp [setdefaultAppend, lookupChildren, List.lookup, hb]
  | cons kv rest ih =>
    obtain ⟨k0, cs⟩ := kv
    by_cases hk : k0 = k
    · subst hk
      simp [setdefaultAppend, lookupChildren_cons, hne]
    · simp [setdefaultAppend, if_neg hk, lookupChildren_cons, ih]

theorem collectFrom_children (l : List CommentRow) :
    ∀ byp roots k, lookupChildren (collectFrom byp roots l).1 k
      = lookupChildren byp k ++ l.filter (fun c => c.parent_id = some k) := by
  induction l with
  | nil => intro byp roots k; simp [collectFrom]
  | cons c rest ih =>
    intro byp roots k
    cases hp : c.parent_id with
    | none =>
      simp only [collectFrom, hp, ih, List.filter_cons, hp]
      simp
    | some p =>
      by_cases hpk : p = k
      · subst hpk
        simp only [collectFrom, hp, ih, List.filter_cons, hp,
          lookupChildren_setdefaultAppend_same]
        simp
      · simp only [collectFrom, hp, ih, List.filter_cons, hp,
          lookupChildren_setdefaultAppend_ne _ _ _ _ (fun h => hpk h.symm)]
        have : (some p = some k) = False := by simp [hpk]
        simp [this]

theorem build_roots (comments : List CommentRow) :
    (collectFrom [] [] comments).2
      = comments.filter (fun c => c.parent_id = none) := by
  rw [collectFrom_roots]
  rfl

theorem build_children (comments : List CommentRow) (k : Nat) :
    lookupChildren (collectFrom [] [] comments).1 k
      = comments.filter (fun c => c.parent_id = some k) := by
  rw [collectFrom_children]
  rfl

/-- Every parent reference points at the id of a strictly earlier comment
of the list (positions taken on the id column): the forest discipline the
view relies on, guaranteed externally because a parent must already exist
on the same post and the list is sorted ascending by creation time. -/
def ParentsEarlier (comments : List CommentRow) : Prop :=
  ∀ c ∈ comments, ∀ p, c.parent_id = some p →
    List.indexOf p (comments.map CommentRow.id)
      < List.indexOf c.id (comments.map CommentRow.id)

/-- Correctness of one produced node: its children are exactly the direct
replies of its id, in input order, recursively so. -/
inductive NodeOk (comments : List CommentRow) : CommentNode → Prop where
  | intro (n : CommentNode)
      (hids : n.children.map CommentNode.id
        = (comments.filter (fun c => c.parent_id = some n.id)).map CommentRow.id)
      (hrec : ∀ m ∈ n.children, NodeOk comments m) : NodeOk comments n

/-- Any fuel covering the distance from a comment's position to the end of
the list materializes a correct subtree for it: each recursion step moves
to children that sit strictly later in the list. -/
theorem comment_to_dict_ok (comments : List CommentRow)
    (hpe : ParentsEarlier comments) :
    ∀ fuel c, c ∈ comments →
      comments.length - List.indexOf c.id (comments.map CommentRow.id) ≤ fuel →
      NodeOk comments (comment_to_dict (collectFrom [] [] comments).1 fuel c) := by
  intro fuel
  induction fuel with
  | zero =>
    intro c hc hle
    exfalso
    have hidx : List.indexOf c.id (comments.map CommentRow.id)
        < (comments.map CommentRow.id).length :=
      List.indexOf_lt_length.mpr (List.mem_map_of_mem CommentRow.id hc)
    rw [List.length_map] at hidx
    omega
  | succ fuel ih =>
    intro c hc hle
    refine NodeOk.intro _ ?_ ?_
    · rw [comment_to_dict_children, comment_to_dict_id, build_children,
        List.map_map]
      exact List.map_congr_left (fun d hd => comment_to_dict_id _ _ _)
    · intro m hm
      rw [comment_to_dict_children, build_children] at hm
      obtain ⟨d, hd, rfl⟩ := List.mem_map.mp hm
      have hdmem : d ∈ comments := (List.mem_filter.mp hd).1
      have hdp : d.parent_id = some c.id :=
        of_decide_eq_true (List.mem_filter.mp hd).2
      have hlt := hpe d hdmem c.id hdp
      have hidxd : List.indexOf d.id (comments.map CommentRow.id)
          < (comments.map CommentRow.id).length :=
        List.indexOf_lt_length.mpr (List.mem_map_of_mem CommentRow.id hdmem)
      rw [List.length_map] at hidxd
      exact ih d hdmem (by omega)

/-- C6: on a flat list whose parent references form a forest (each parent an
earlier comment of the list), build_comment_tree returns the parentless
comments as roots in input order and gives every node exactly its direct
replies as children in input (chronological) order; on the example
[A(none,t1), B(none,t2), C(parent A,t3), D(parent C,t4)] it returns roots
[A, B] with chain A -> C -> D and B childless. -/
theorem build_comment_tree_correct (comments : List CommentRow)
    (hpe : ParentsEarlier comments) :
    ((build_comment_tree comments).map CommentNode.id
      = (comments.filter (fun c => c.parent_id = none)).map CommentRow.id) ∧
    (∀ n ∈ build_comment_tree comments, NodeOk comments n) ∧
    build_comment_tree
      [⟨1, "A", 10, "alice", 1, 0, false, none⟩,
       ⟨2, "B", 11, "bob", 2, 0, false, none⟩,
       ⟨3, "C", 10, "alice", 3, 0, false, some 1⟩,
       ⟨4, "D", 12, "dana", 4, 0, false, some 3⟩]
      = [CommentNode.mk 1 "A" 10 "alice" 1 0 false
          [CommentNode.mk 3 "C" 10 "alice" 3 0 false
            [CommentNode.mk 4 "D" 12 "dana" 4 0 false []]],
         CommentNode.mk 2 "B" 11 "bob" 2 0 false []] := by
  refine ⟨?_, ?_, rfl⟩
  · show ((collectFrom [] [] comments).2.map
        (comment_to_dict (collectFrom [] [] comments).1 comments.length)).map
        CommentNode.id = _
    rw [build_roots, List.map_map]
    exact List.map_congr_left (fun d hd => comment_to_dict_id _ _ _)
  · intro n hn
    obtain ⟨r, hr, rfl⟩ := List.mem_map.mp hn
    have hrmem : r ∈ comments := by
      rw [build_roots] at hr
      exact (List.mem_filter.mp hr).1
    exact comment_to_dict_ok comments hpe comments.length r hrmem (Nat.sub_le _ _)

/-- C6 witness: the theorem applied to the example list itself, whose parent
references do point at earlier comments. -/
theorem build_comment_tree_correct_witness :
    build_comment_tree
      [⟨1, "A", 10, "alice", 1, 0, false, none⟩,
       ⟨2, "B", 11, "bob", 2, 0, false, none⟩,
       ⟨3, "C", 10, "alice", 3, 0, false, some 1⟩,
       ⟨4, "D", 12, "dana", 4, 0, false, some 3⟩]
      = [CommentNode.mk 1 "A" 10 "alice" 1 0 false
          [CommentNode.mk 3 "C" 10 "alice" 3 0 false
            [CommentNode.mk 4 "D" 12 "dana" 4 0 false []]],
         CommentNode.mk 2 "B" 11 "bob" 2 0 false []] :=
  (build_comment_tree_correct
    [⟨1, "A", 10, "alice", 1, 0, false, none⟩,
     ⟨2, "B", 11, "bob", 2, 0, false, none⟩,
     ⟨3, "C", 10, "alice", 3, 0, false, some 1⟩,
     ⟨4, "D", 12, "dana", 4, 0, false, some 3⟩]
    (by
      intro c hc p hp
      simp only [List.mem_cons, List.not_mem_nil, or_false] at hc
      rcases hc with rfl | rfl | rfl | rfl
      · simp at hp
      · simp at hp
      · simp at hp
        subst hp
        decide
      · simp at hp
        subst hp
        decide)).2.2

/-- The ids of a node and all its descendants. -/
def nodeIds : CommentNode → List Nat
  | .mk i _ _ _ _ _ _ cs => i :: (cs.attach.map (fun x => nodeIds x.1)).flatten
decreasing_by
  simp_wf
  have h := List.sizeOf_lt_of_mem x.2
  omega

/-- The ids appearing anywhere in a forest. -/
def forestIds (forest : List CommentNode) : List Nat :=
  (forest.map nodeIds).flatten

theorem nodeIds_mk (i : Nat) (b : String) (a : Nat) (u : String) (t : Int)
    (lc : Nat) (lb : Bool) (cs : List CommentNode) :
    nodeIds (CommentNode.mk i b a u t lc lb cs)
      = i :: (cs.map nodeIds).flatten := by
  simp only [nodeIds]
  rw [List.attach_map_val]

/-- A comment is supported when its parent chain stays inside the list and
ends at a parentless comment of the list. -/
inductive Supported (comments : List CommentRow) : CommentRow → Prop where
  | root (c : CommentRow) : c ∈ comments → c.parent_id = none →
      Supported comments c
  | child (c d : CommentRow) : c ∈ comments → c.parent_id = some d.id →
      d ∈ comments → Supported comments d → Supported comments c

/-- Every id materialized below a supported comment belongs to a supported
comment of the list, for any fuel. -/
theorem nodeIds_supported (comments : List CommentRow) :
    ∀ fuel c, c ∈ comments → Supported comments c →
      ∀ i ∈ nodeIds (comment_to_dict (collectFrom [] [] comments).1 fuel c),
        ∃ d ∈ comments, d.id = i ∧ Supported comments d := by
  intro fuel
  induction fuel with
  | zero =>
    intro c hc hs i hi
    rw [comment_to_dict, nodeIds_mk] at hi
    simp only [List.map_nil, List.flatten_nil, List.mem_singleton] at hi
    exact ⟨c, hc, hi.symm, hs⟩
  | succ fuel ih =>
    intro c hc hs i hi
    rw [comment_to_dict, nodeIds_mk] at hi
    rcases List.mem_cons.mp hi with rfl | hi'
    · exact ⟨c, hc, rfl, hs⟩
    · obtain ⟨s, hsmem, his⟩ := List.mem_flatten.mp hi'
      obtain ⟨m, hmmem, rfl⟩ := List.mem_map.mp hsmem
      obtain ⟨d, hd, rfl⟩ := List.mem_map.mp (by
        rw [build_children] at hmmem
        exact hmmem)
      have hdmem : d ∈ comments := (List.mem_filter.mp hd).1
      have hdp : d.parent_id = some c.id :=
        of_decide_eq_true (List.mem_filter.mp hd).2
      exact ih d hdmem (Supported.child d c hdmem hdp hc hs) i his

/-- C10: the forest returned by build_comment_tree contains only comments
whose parent chain ends at a parentless comment of the list; a comment
whose parent id is not the id of any comment in the list (and anything
reachable only through it) is silently omitted: it is neither promoted to
a root nor attached anywhere. -/
theorem build_comment_tree_omits_orphans (comments : List CommentRow)
    (hnodup : (comments.map CommentRow.id).Nodup) :
    (∀ i ∈ forestIds (build_comment_tree comments),
      ∃ c ∈ comments, c.id = i ∧ Supported comments c) ∧
    (∀ c ∈ comments, ∀ p, c.parent_id = some p →
      (∀ d ∈ comments, d.id ≠ p) →
      c.id ∉ forestIds (build_comment_tree comments)) := by
  have hmain : ∀ i ∈ forestIds (build_comment_tree comments),
      ∃ c ∈ comments, c.id = i ∧ Supported comments c := by
    intro i hi
    obtain ⟨s, hsmem, his⟩ := List.mem_flatten.mp hi
    obtain ⟨n, hnmem, rfl⟩ := List.mem_map.mp hsmem
    obtain ⟨r, hr, rfl⟩ := List.mem_map.mp hnmem
    rw [build_roots] at hr
    have hrmem : r ∈ comments := (List.mem_filter.mp hr).1
    have hrnone : r.parent_id = none :=
      of_decide_eq_true (List.mem_filter.mp hr).2
    exact nodeIds_supported comments comments.length r hrmem
      (Supported.root r hrmem hrnone) i his
  refine ⟨hmain, ?_⟩
  intro c hc p hp hnone hmem
  obtain ⟨d, hdmem, hdid, hdsup⟩ := hmain c.id hmem
  have hdc : d = c := List.inj_on_of_nodup_map hnodup hdmem hc hdid
  subst hdc
  cases hdsup with
  | root _ _ hnoneq => rw [hp] at hnoneq; cases hnoneq
  | child _ e _ hpe hemem _ =>
    rw [hp] at hpe
    exact hnone e hemem (Option.some.inj hpe).symm

/-- C10 witness: in the list [root 1, orphan 2 with parent 99], id 2 never
appears in the produced forest. -/
theorem build_comment_tree_omits_orphans_witness :
    (2 : Nat) ∉ forestIds (build_comment_tree
      [⟨1, "r", 10, "u", 1, 0, false, none⟩,
       ⟨2, "o", 11, "v", 2, 0, false, some 99⟩]) :=
  (build_comment_tree_omits_orphans
    [⟨1, "r", 10, "u", 1, 0, false, none⟩,
     ⟨2, "o", 11, "v", 2, 0, false, some 99⟩] (by decide)).2
    ⟨2, "o", 11, "v", 2, 0, false, some 99⟩ (by simp) 99 rfl (by decide)

end CommunityFeed
